import Mathlib

/-!
Verification of the shroom shell's lexer/parser pipeline and its
dispatcher/executor, shallowly embedded from `src/parser.rs` (the lexer
and parser generation with double-quote escapes) and `src/main.rs`
(argument evaluation and command dispatch).

Input text is modelled as `List Char` (the Rust code walks the `char`s of
a `&str`); token text is a `String`.  The Rust lexer is a stateful
iterator over `Result<Token, ParseError>`; here it is the total function
`Lexer.lex` producing the finite stream of results the iterator would
yield, and the parser consumes that stream.  Laziness is immaterial: the
parser is pure and stops consuming at exactly the same points.
-/

/-- `Expr` from parser.rs: the single-variant argument expression fragment. -/
inductive Expr where
  | Text (s : String)
deriving DecidableEq, Repr

/-- `Ast` from parser.rs: a parsed line is empty or one command call. -/
inductive Ast where
  | Empty
  | Call (command : String) (args : List (List Expr))
deriving DecidableEq, Repr

/-- `Token` from parser.rs. -/
inductive Token where
  | Newline
  | Whitespace
  | Text (s : String)
deriving DecidableEq, Repr

/-- `ParseError` from parser.rs. -/
inductive ParseError where
  | UnclosedDelimiter
  | UnexpectedChar
  | UnexpectedEnd
deriving DecidableEq, Repr

/-- `Lexer::is_whitespace` from parser.rs. -/
def Lexer.is_whitespace (c : Char) : Bool :=
  c = ' ' ∨ c = '\t'

/-- `Lexer::is_unquoted_text` from parser.rs (the generation without `,`). -/
def Lexer.is_unquoted_text (c : Char) : Bool :=
  ('a' ≤ c ∧ c ≤ 'z') ∨ ('A' ≤ c ∧ c ≤ 'Z') ∨ ('0' ≤ c ∧ c ≤ '9') ∨
    c = '-' ∨ c = '+' ∨ c = '/' ∨ c = '_' ∨ c = '.'

/-- `Lexer::lex_double_quote_escape` from parser.rs: the cursor sits right
after a backslash inside a double-quoted segment.  Returns the extended
accumulated text together with the remaining input. -/
def Lexer.lex_double_quote_escape (text : List Char) :
    List Char → Except ParseError (List Char × List Char)
  | [] => .error .UnexpectedEnd
  | escaped :: rest =>
    if escaped = '\\' ∨ escaped = '"' then .ok (text ++ [escaped], rest)
    else .ok (text ++ ['\\', escaped], rest)

/-- `Lexer::lex_double_quoted_text` from parser.rs: the cursor sits right
after the opening `"`.  The escape helper is unfolded into the two-step
pattern match so that the recursion is structural; the lemma
`Lexer.lex_double_quoted_text_escape_step` below re-establishes the exact
call shape of the source. -/
def Lexer.lex_double_quoted_text (text : List Char) :
    List Char → Except ParseError (Token × List Char)
  | [] => .error .UnclosedDelimiter
  | c :: rest =>
    if c = '"' then .ok (.Text (String.mk text), rest)
    else if c = '\\' then
      match rest with
      | [] => .error .UnexpectedEnd
      | escaped :: rest2 =>
        if escaped = '\\' ∨ escaped = '"' then
          Lexer.lex_double_quoted_text (text ++ [escaped]) rest2
        else
          Lexer.lex_double_quoted_text (text ++ ['\\', escaped]) rest2
    else Lexer.lex_double_quoted_text (text ++ [c]) rest

/-- The inlined escape step of `Lexer.lex_double_quoted_text` agrees with
`Lexer.lex_double_quote_escape` exactly as in the source, where the quoted
loop calls the escape helper on the remaining input after a backslash. -/
theorem Lexer.lex_double_quoted_text_escape_step (text : List Char) (rest : List Char) :
    Lexer.lex_double_quoted_text text ('\\' :: rest) =
      match Lexer.lex_double_quote_escape text rest with
      | .ok (text2, rest2) => Lexer.lex_double_quoted_text text2 rest2
      | .error e => .error e := by
  match rest with
  | [] => simp [Lexer.lex_double_quoted_text, Lexer.lex_double_quote_escape]
  | escaped :: rest2 =>
    by_cases h : escaped = '\\' ∨ escaped = '"' <;>
      simp [Lexer.lex_double_quoted_text, Lexer.lex_double_quote_escape, h]

/-- The remaining input returned by a successful quoted-segment lex is a
suffix of what the segment started from (needed for lexer termination). -/
theorem Lexer.lex_double_quoted_text_length (text cs : List Char) :
    ∀ t rest2, Lexer.lex_double_quoted_text text cs = .ok (t, rest2) →
      rest2.length ≤ cs.length := by
  induction text, cs using Lexer.lex_double_quoted_text.induct with
  | case1 text =>
    intro t rest2 h
    simp [Lexer.lex_double_quoted_text] at h
  | case2 text rest =>
    intro t rest2 h
    rw [Lexer.lex_double_quoted_text.eq_def] at h
    simp at h
    simp [h.2]
  | case3 text hne =>
    intro t rest2 h
    rw [Lexer.lex_double_quoted_text.eq_def] at h
    simp at h
  | case4 text escaped rest hesc hne ih =>
    intro t r h
    simp only [Lexer.lex_double_quoted_text, if_neg hne, if_pos rfl, if_pos hesc] at h
    have := ih t r h
    simp only [List.length_cons]
    omega
  | case5 text escaped rest hesc hne ih =>
    intro t r h
    simp only [Lexer.lex_double_quoted_text, if_neg hne, if_pos rfl, if_neg hesc] at h
    have := ih t r h
    simp only [List.length_cons]
    omega
  | case6 text escaped rest hq hb ih =>
    intro t r h
    rw [Lexer.lex_double_quoted_text.eq_def] at h
    simp only [if_neg hq, if_neg hb] at h
    have := ih t r h
    simp only [List.length_cons]
    omega

/-- `Lexer::next` iterated to exhaustion: the finite stream of
`Result<Token, ParseError>` values the Rust iterator yields.  Each arm
mirrors one arm of the `match` in `impl Iterator for Lexer`: whitespace
and unquoted-text runs are the `skip_while` maximal runs (the dispatching
character is unread and re-consumed in the source, hence `takeWhile` /
`dropWhile` over the list headed by it); `\r`/`\n` yield `Newline`; `"`
enters the quoted-segment lexer, whose failures leave the cursor at the
end of input, so the stream ends at such an error; any other character
yields `UnexpectedChar` with the cursor past it. -/
def Lexer.lex : List Char → List (Except ParseError Token)
  | [] => []
  | c :: rest =>
    if Lexer.is_whitespace c then
      .ok .Whitespace :: Lexer.lex (rest.dropWhile Lexer.is_whitespace)
    else if h : Lexer.is_unquoted_text c then
      .ok (.Text (String.mk ((c :: rest).takeWhile Lexer.is_unquoted_text))) ::
        Lexer.lex ((c :: rest).dropWhile Lexer.is_unquoted_text)
    else if c = '\r' ∨ c = '\n' then
      .ok .Newline :: Lexer.lex rest
    else if c = '"' then
      match h2 : Lexer.lex_double_quoted_text [] rest with
      | .ok (t, rest2) => .ok t :: Lexer.lex rest2
      | .error e => [.error e]
    else
      .error .UnexpectedChar :: Lexer.lex rest
termination_by cs => cs.length
decreasing_by
  · have := (List.dropWhile_sublist (l := rest) (p := Lexer.is_whitespace)).length_le
    simp only [List.length_cons]
    omega
  · rw [List.dropWhile_cons_of_pos h]
    have := (List.dropWhile_sublist (l := rest) (p := Lexer.is_unquoted_text)).length_le
    simp only [List.length_cons]
    omega
  · simp
  · have := Lexer.lex_double_quoted_text_length [] rest t rest2 h2
    simp only [List.length_cons]
    omega
  · simp

/-- The loop body of `Parser::parse_call` from parser.rs, with the loop
state (`args`, `current_arg`) explicit.  The stream plays the role of the
`&mut self.lexer` iterator: an `Err` pulled from it propagates via `try!`;
`Newline` finalizes a non-empty current argument and breaks; `Whitespace`
finalizes a non-empty current argument (a run with nothing accumulated
does nothing); `Text` appends a fragment to the current argument.  When
the stream is exhausted the loop simply ends: the `current_arg` in flight
is dropped, exactly as in the source, where no push happens after the
`for` loop. -/
def Parser.parse_call_go (args : List (List Expr)) (current_arg : List Expr) :
    List (Except ParseError Token) → Except ParseError (List (List Expr))
  | [] => .ok args
  | .error e :: _ => .error e
  | .ok .Newline :: _ =>
    .ok (if current_arg.isEmpty then args else args ++ [current_arg])
  | .ok .Whitespace :: rest =>
    Parser.parse_call_go (if current_arg.isEmpty then args else args ++ [current_arg]) [] rest
  | .ok (.Text text) :: rest =>
    Parser.parse_call_go args (current_arg ++ [Expr.Text text]) rest

/-- `Parser::parse_call` from parser.rs: run the accumulation loop with
both lists empty and wrap the result in `Ast::Call`. -/
def Parser.parse_call (command : String) (ts : List (Except ParseError Token)) :
    Except ParseError Ast :=
  match Parser.parse_call_go [] [] ts with
  | .error e => .error e
  | .ok args => .ok (.Call command args)

/-- `Parser::parse` from parser.rs: skip leading `Whitespace`/`Newline`
tokens, return `Empty` on stream exhaustion, and enter `parse_call` on the
first `Text` token, which becomes the command name.  A pulled lexer error
propagates via `try!`. -/
def Parser.parse : List (Except ParseError Token) → Except ParseError Ast
  | [] => .ok .Empty
  | .error e :: _ => .error e
  | .ok .Whitespace :: rest => Parser.parse rest
  | .ok .Newline :: rest => Parser.parse rest
  | .ok (.Text command) :: rest => Parser.parse_call command rest

/-- `Parser::new(input).parse()`: the whole pipeline from raw characters,
with the lexer's result stream fed to the parser. -/
def Parser.parse_input (s : List Char) : Except ParseError Ast :=
  Parser.parse (Lexer.lex s)

/-- Evaluation of one argument's fragment list, from `execute` in main.rs:
`arg.iter().map(...).join("")`, concatenating the fragments' literal text
with no separator. -/
def evalArg (arg : List Expr) : String :=
  String.join (arg.map (fun e => match e with | .Text text => text))

/-- One entry of the builtin registry from main.rs, minus the `func`
pointer: handler invocation crosses the OS boundary and is modelled by
`OS.run_builtin` below, selected by the (unique) builtin name. -/
structure Builtin where
  name : String
  min_args : Nat
  max_args : Nat
deriving DecidableEq, Repr

/-- The registry built at the top of `execute` in main.rs: `cd` and `exit`,
both with argument-count range `[0, 1]`.  The `HashMap` keyed by exact
name is modelled as a list searched by exact name match. -/
def builtins : List Builtin :=
  [⟨"cd", 0, 1⟩, ⟨"exit", 0, 1⟩]

/-- `std::process::ExitStatus` as the dispatcher observes it: an optional
explicit exit code (`.code()`) and an optional termination signal
(`.signal()`, meaningful on unix). -/
structure ExitStatus where
  code : Option Int
  signal : Option Int
deriving DecidableEq, Repr

/-- The platform-conditional `exit_signal` helper nested in `execute`:
under `#[cfg(unix)]` it reads `exit_status.signal()`; otherwise it is
constantly `None`.  The compile-time `cfg` choice is the `unix` flag. -/
def exit_signal (unix : Bool) (exit_status : ExitStatus) : Option Int :=
  if unix then exit_status.signal else none

/-- The OS services `execute` in main.rs reaches through: `Command::new
(command).args(...).status()` (spawn and block; `.error` carries the io
error's display text), the platform flag for `exit_signal`, and the
builtin handlers (`builtin_cd`, `builtin_exit`), which only touch OS
state (working directory, process termination) and the error stream, and
whose observable outcome is an exit code plus diagnostic lines. -/
structure OS where
  unix : Bool
  spawn : String → List String → Except String ExitStatus
  run_builtin : String → List String → Int × List String

/-- `execute` from main.rs: evaluate the argument expressions, look the
command up in the builtin registry, enforce the `[min_args, max_args]`
arity range (against `args.len()`, as in the source), and otherwise spawn
an external process and translate its termination status: an explicit
exit code wins; else a termination signal `N` gives `128 + N`; else
`127`; a spawn failure reports the error and gives `127`.  The returned
pair is (exit code, diagnostic lines written to the error stream). -/
def execute (os : OS) : Ast → Int × List String
  | .Empty => (0, [])
  | .Call command args =>
    let evaluated_args := args.map evalArg
    match builtins.find? (fun b => b.name == command) with
    | some builtin =>
      if args.length < builtin.min_args then
        (1, ["shroom: " ++ builtin.name ++ ": not enough arguments"])
      else if args.length > builtin.max_args then
        (1, ["shroom: " ++ builtin.name ++ ": too many arguments"])
      else
        os.run_builtin builtin.name evaluated_args
    | none =>
      match os.spawn command evaluated_args with
      | .ok exit_status =>
        (match exit_status.code with
          | some code => code
          | none =>
            match exit_signal os.unix exit_status with
            | some signal => 128 + signal
            | none => 127, [])
      | .error e => (127, ["shroom: " ++ command ++ ": " ++ e])

/-- A token other than `Newline` (the parser's `parse_call` loop keeps
pulling as long as these arrive). -/
def notNewline : Token → Bool
  | .Newline => false
  | _ => true

/-- `stillPulling toks` holds when, after consuming the ok-tokens `toks`,
`Parser.parse` is still pulling from the stream: before the first `Text`
token, `Whitespace` and `Newline` are skipped; once a `Text` token has
started a call, only a `Newline` stops the pull. -/
def stillPulling : List Token → Bool
  | [] => true
  | .Newline :: rest => stillPulling rest
  | .Whitespace :: rest => stillPulling rest
  | .Text _ :: rest => rest.all notNewline

/-- The state of the `parse_call` accumulation loop after consuming a
newline-free token prefix: the arguments finalized by `Whitespace`
separators so far, and the pending current argument.  A `Newline` would
stop the loop, so the state is returned unchanged there. -/
def Parser.parse_call_state (args : List (List Expr)) (current_arg : List Expr) :
    List Token → List (List Expr) × List Expr
  | [] => (args, current_arg)
  | .Newline :: _ => (args, current_arg)
  | .Whitespace :: rest =>
    Parser.parse_call_state (if current_arg.isEmpty then args else args ++ [current_arg]) [] rest
  | .Text text :: rest =>
    Parser.parse_call_state args (current_arg ++ [Expr.Text text]) rest

/-- Scan of a double-quoted segment body that characterizes the failing
inputs of `Lexer.lex_double_quoted_text`: `none` when an unescaped
closing `"` is reached, `some UnexpectedEnd` when the input ends right
after a backslash, `some UnclosedDelimiter` when it ends with the quote
still open. -/
def quotedFailure : List Char → Option ParseError
  | [] => some .UnclosedDelimiter
  | c :: rest =>
    if c = '"' then none
    else if c = '\\' then
      match rest with
      | [] => some .UnexpectedEnd
      | _ :: rest2 => quotedFailure rest2
    else quotedFailure rest

/-- Whitespace characters never belong to the unquoted-text class. -/
theorem Lexer.ws_not_unquoted (c : Char) (h : Lexer.is_whitespace c = true) :
    Lexer.is_unquoted_text c = false := by
  simp [Lexer.is_whitespace] at h
  rcases h with h | h <;> subst h <;> decide

/-- Unquoted-text characters are never whitespace. -/
theorem Lexer.unquoted_not_ws (c : Char) (h : Lexer.is_unquoted_text c = true) :
    Lexer.is_whitespace c = false := by
  cases hw : Lexer.is_whitespace c with
  | false => rfl
  | true => rw [Lexer.ws_not_unquoted c hw] at h; cases h

/-- One whitespace-run token: lexing from a whitespace character consumes
the maximal space/tab run and emits `Whitespace`. -/
theorem Lexer.lex_ws_run (c : Char) (w rest : List Char)
    (hc : Lexer.is_whitespace c = true)
    (hw : ∀ d ∈ w, Lexer.is_whitespace d = true)
    (hr : ∀ d, rest.head? = some d → Lexer.is_whitespace d = false) :
    Lexer.lex (c :: (w ++ rest)) = .ok .Whitespace :: Lexer.lex rest := by
  have hdrop : List.dropWhile Lexer.is_whitespace (w ++ rest) = rest := by
    rw [List.dropWhile_append_of_pos hw]
    cases rest with
    | nil => rfl
    | cons d rest2 => rw [List.dropWhile_cons_of_neg]; simp [hr d rfl]
  rw [Lexer.lex.eq_def]
  simp [hc, hdrop]

/-- One unquoted-word token: lexing from an unquoted-text character
consumes the maximal run and emits `Text` with exactly that run. -/
theorem Lexer.lex_word_run (c : Char) (w rest : List Char)
    (hc : Lexer.is_unquoted_text c = true)
    (hw : ∀ d ∈ w, Lexer.is_unquoted_text d = true)
    (hr : ∀ d, rest.head? = some d → Lexer.is_unquoted_text d = false) :
    Lexer.lex (c :: (w ++ rest)) =
      .ok (.Text (String.mk (c :: w))) :: Lexer.lex rest := by
  have htake : List.takeWhile Lexer.is_unquoted_text (w ++ rest) = w := by
    rw [List.takeWhile_append_of_pos hw]
    cases rest with
    | nil => simp
    | cons d rest2 => rw [List.takeWhile_cons_of_neg] <;> simp [hr d rfl]
  have hdrop : List.dropWhile Lexer.is_unquoted_text (w ++ rest) = rest := by
    rw [List.dropWhile_append_of_pos hw]
    cases rest with
    | nil => rfl
    | cons d rest2 => rw [List.dropWhile_cons_of_neg]; simp [hr d rfl]
  rw [Lexer.lex.eq_def]
  simp [Lexer.unquoted_not_ws c hc, hc, htake, hdrop]

/-- One newline token: `\r` or `\n` is consumed alone and emits `Newline`. -/
theorem Lexer.lex_newline (c : Char) (rest : List Char)
    (hc : c = '\r' ∨ c = '\n') :
    Lexer.lex (c :: rest) = .ok .Newline :: Lexer.lex rest := by
  rcases hc with h | h <;> subst h <;> rw [Lexer.lex.eq_def] <;>
    simp [Lexer.is_whitespace, Lexer.is_unquoted_text]

/-- The quote branch of the lexer: from a `"` the quoted-segment lexer
runs on the remaining input; on failure the cursor is at the end of the
input, so the stream ends with that error. -/
theorem Lexer.lex_quote (rest : List Char) :
    Lexer.lex ('"' :: rest) =
      match Lexer.lex_double_quoted_text [] rest with
      | .ok (t, rest2) => .ok t :: Lexer.lex rest2
      | .error e => [.error e] := by
  rw [Lexer.lex.eq_def]
  simp only [show Lexer.is_whitespace '"' = false from rfl,
    show Lexer.is_unquoted_text '"' = false from rfl, Bool.false_eq_true, if_false]
  cases hh : Lexer.lex_double_quoted_text [] rest <;> simp

/-- A body on which `quotedFailure` reports an error makes
`Lexer.lex_double_quoted_text` fail with exactly that error, whatever
text has been accumulated so far. -/
theorem Lexer.lex_double_quoted_text_failure (cs : List Char) (e : ParseError)
    (h : quotedFailure cs = some e) :
    ∀ text, Lexer.lex_double_quoted_text text cs = .error e := by
  induction cs using quotedFailure.induct with
  | case1 =>
    intro text
    simp [quotedFailure] at h
    rw [Lexer.lex_double_quoted_text.eq_def]
    simp [h]
  | case2 rest =>
    rw [show quotedFailure ('"' :: rest) = none from by
      rw [quotedFailure.eq_def]; simp] at h
    cases h
  | case3 hne =>
    intro text
    rw [show quotedFailure ['\\'] = some .UnexpectedEnd from by
      rw [quotedFailure.eq_def]; simp] at h
    cases h
    rw [Lexer.lex_double_quoted_text.eq_def]
    simp
  | case4 escaped rest hne ih =>
    intro text
    rw [quotedFailure.eq_def] at h
    simp only [if_neg hne, if_pos rfl] at h
    have hrec := ih h
    rw [Lexer.lex_double_quoted_text.eq_def]
    simp only [if_neg hne, if_pos rfl]
    by_cases hesc : escaped = '\\' ∨ escaped = '"' <;> simp [hesc, hrec]
  | case5 escaped rest hq hb ih =>
    intro text
    rw [quotedFailure.eq_def] at h
    simp only [if_neg hq, if_neg hb] at h
    have hrec := ih h
    rw [Lexer.lex_double_quoted_text.eq_def]
    simp [if_neg hq, if_neg hb, hrec]

/-- While the `parse_call` loop is pulling tokens (no `Newline` yet), an
error in the stream propagates out of the loop unchanged, whatever the
accumulated state is. -/
theorem Parser.parse_call_go_error (toks : List Token) (hn : toks.all notNewline = true) :
    ∀ args current_arg e rest,
      Parser.parse_call_go args current_arg (toks.map .ok ++ .error e :: rest) = .error e := by
  induction toks with
  | nil => intro args current_arg e rest; rfl
  | cons t toks ih =>
    intro args current_arg e rest
    simp only [List.all_cons, Bool.and_eq_true] at hn
    cases t with
    | Newline => simp [notNewline] at hn
    | Whitespace => simp only [List.map_cons, List.cons_append, Parser.parse_call_go]; exact ih hn.2 _ _ _ _
    | Text s => simp only [List.map_cons, List.cons_append, Parser.parse_call_go]; exact ih hn.2 _ _ _ _

/-- Error propagation through `Parser.parse`: if the stream consists of
ok tokens the parser is still pulling through, followed by a lexer error,
the parse result is exactly that error. -/
theorem Parser.parse_error_propagation (toks : List Token)
    (hp : stillPulling toks = true) (e : ParseError) (rest : List (Except ParseError Token)) :
    Parser.parse (toks.map .ok ++ .error e :: rest) = .error e := by
  induction toks with
  | nil => rfl
  | cons t toks ih =>
    cases t with
    | Newline =>
      simp only [stillPulling] at hp
      simp only [List.map_cons, List.cons_append, Parser.parse]
      exact ih hp
    | Whitespace =>
      simp only [stillPulling] at hp
      simp only [List.map_cons, List.cons_append, Parser.parse]
      exact ih hp
    | Text command =>
      simp only [stillPulling] at hp
      simp only [List.map_cons, List.cons_append, Parser.parse, Parser.parse_call,
        List.append_eq]
      rw [Parser.parse_call_go_error toks hp [] [] e rest]

/-- A line made only of spaces, tabs, carriage returns and newlines
parses to `Empty` (auxiliary, by strong induction through the fuel `n`). -/
theorem Parser.parse_ws_only_aux :
    ∀ n (s : List Char), s.length ≤ n →
      (∀ c ∈ s, c = ' ' ∨ c = '\t' ∨ c = '\r' ∨ c = '\n') →
      Parser.parse (Lexer.lex s) = .ok .Empty := by
  intro n
  induction n with
  | zero =>
    intro s hlen _
    have : s = [] := List.length_eq_zero.mp (Nat.le_zero.mp hlen)
    subst this
    rw [Lexer.lex.eq_def]
    rfl
  | succ n ih =>
    intro s hlen hclass
    cases s with
    | nil => rw [Lexer.lex.eq_def]; rfl
    | cons c rest =>
      rcases hclass c (List.mem_cons_self c rest) with h | h | h | h
      · subst h
        rw [Lexer.lex.eq_def]
        simp only [show Lexer.is_whitespace ' ' = true from rfl, if_true, Parser.parse]
        refine ih _ ?_ ?_
        · have := (List.dropWhile_sublist (l := rest) (p := Lexer.is_whitespace)).length_le
          simp only [List.length_cons] at hlen
          omega
        · intro d hd
          exact hclass d (List.mem_cons_of_mem _
            ((List.dropWhile_sublist (l := rest) (p := Lexer.is_whitespace)).subset hd))
      · subst h
        rw [Lexer.lex.eq_def]
        simp only [show Lexer.is_whitespace '\t' = true from rfl, if_true, Parser.parse]
        refine ih _ ?_ ?_
        · have := (List.dropWhile_sublist (l := rest) (p := Lexer.is_whitespace)).length_le
          simp only [List.length_cons] at hlen
          omega
        · intro d hd
          exact hclass d (List.mem_cons_of_mem _
            ((List.dropWhile_sublist (l := rest) (p := Lexer.is_whitespace)).subset hd))
      · subst h
        rw [Lexer.lex_newline '\r' rest (Or.inl rfl)]
        simp only [Parser.parse]
        refine ih _ ?_ ?_
        · simp only [List.length_cons] at hlen; omega
        · intro d hd; exact hclass d (List.mem_cons_of_mem _ hd)
      · subst h
        rw [Lexer.lex_newline '\n' rest (Or.inr rfl)]
        simp only [Parser.parse]
        refine ih _ ?_ ?_
        · simp only [List.length_cons] at hlen; omega
        · intro d hd; exact hclass d (List.mem_cons_of_mem _ hd)

/-- A line made only of spaces, tabs, carriage returns and newlines
(including the empty line) parses to `Empty`. -/
theorem Parser.parse_ws_only (s : List Char)
    (hclass : ∀ c ∈ s, c = ' ' ∨ c = '\t' ∨ c = '\r' ∨ c = '\n') :
    Parser.parse_input s = .ok .Empty :=
  Parser.parse_ws_only_aux s.length s (Nat.le_refl _) hclass

/-- `dropWhile` distributes over an append whose right part starts with a
character failing the predicate. -/
theorem dropWhile_append_head_neg (p : Char → Bool) (xs t : List Char)
    (ht : ∀ d, t.head? = some d → p d = false) :
    List.dropWhile p (xs ++ t) = List.dropWhile p xs ++ t := by
  have htt : List.dropWhile p t = t := by
    cases t with
    | nil => rfl
    | cons d t2 => rw [List.dropWhile_cons_of_neg]; simp [ht d rfl]
  rw [List.dropWhile_append]
  by_cases he : (List.dropWhile p xs).isEmpty
  · simp [he, htt, List.isEmpty_iff.mp he]
  · simp [he]

/-- Lexing a stretch of unquoted-text and whitespace characters in front
of a suffix that starts with a character outside both classes yields some
error-free, newline-free tokens followed by the lex of the suffix. -/
theorem Lexer.lex_words_append_aux :
    ∀ n (s : List Char), s.length ≤ n →
      (∀ c ∈ s, Lexer.is_unquoted_text c = true ∨ Lexer.is_whitespace c = true) →
      ∀ t, (∀ d, t.head? = some d →
          Lexer.is_unquoted_text d = false ∧ Lexer.is_whitespace d = false) →
        ∃ toks : List Token,
          Lexer.lex (s ++ t) = toks.map .ok ++ Lexer.lex t ∧
            toks.all notNewline = true := by
  intro n
  induction n with
  | zero =>
    intro s hlen _ t _
    have : s = [] := List.length_eq_zero.mp (Nat.le_zero.mp hlen)
    subst this
    exact ⟨[], by simp, rfl⟩
  | succ n ih =>
    intro s hlen hclass t ht
    cases s with
    | nil => exact ⟨[], by simp, rfl⟩
    | cons c rest =>
      have hsub := (List.dropWhile_sublist (l := rest) (p := Lexer.is_whitespace))
      have hsub2 := (List.dropWhile_sublist (l := rest) (p := Lexer.is_unquoted_text))
      rcases hclass c (List.mem_cons_self c rest) with hc | hc
      · -- unquoted-text head: one Text token
        have hw := Lexer.unquoted_not_ws c hc
        rw [List.cons_append, Lexer.lex.eq_def]
        simp only [hw, Bool.false_eq_true, if_false, hc, reduceDIte,
          List.dropWhile_cons_of_pos hc]
        rw [dropWhile_append_head_neg _ rest t (fun d hd => (ht d hd).1)]
        obtain ⟨toks, heq, hall⟩ := ih (List.dropWhile Lexer.is_unquoted_text rest)
          (by have := hsub2.length_le; simp only [List.length_cons] at hlen; omega)
          (fun d hd => hclass d (List.mem_cons_of_mem _ (hsub2.subset hd))) t ht
        exact ⟨.Text (String.mk (List.takeWhile Lexer.is_unquoted_text (c :: (rest ++ t)))) :: toks,
          by simp [heq], by simp [notNewline, hall]⟩
      · -- whitespace head: one Whitespace token
        rw [List.cons_append, Lexer.lex.eq_def]
        simp only [hc, if_true]
        rw [dropWhile_append_head_neg _ rest t (fun d hd => (ht d hd).2)]
        obtain ⟨toks, heq, hall⟩ := ih (List.dropWhile Lexer.is_whitespace rest)
          (by have := hsub.length_le; simp only [List.length_cons] at hlen; omega)
          (fun d hd => hclass d (List.mem_cons_of_mem _ (hsub.subset hd))) t ht
        exact ⟨.Whitespace :: toks, by simp [heq], by simp [notNewline, hall]⟩

/-- Every list of tokens without a `Newline` keeps the parser pulling. -/
theorem stillPulling_of_all_notNewline (toks : List Token)
    (h : toks.all notNewline = true) : stillPulling toks = true := by
  induction toks with
  | nil => rfl
  | cons t toks ih =>
    simp only [List.all_cons, Bool.and_eq_true] at h
    cases t with
    | Newline => simp [notNewline] at h
    | Whitespace => simp only [stillPulling]; exact ih h.2
    | Text s => simp only [stillPulling]; exact h.2

/-- The command of a parsed `Call` is the text of some `Text` token of the
stream (namely, the first one the parser pulls). -/
theorem Parser.parse_command_mem (ts : List (Except ParseError Token))
    (cmd : String) (args : List (List Expr))
    (h : Parser.parse ts = .ok (.Call cmd args)) : .ok (.Text cmd) ∈ ts := by
  induction ts with
  | nil => simp [Parser.parse] at h
  | cons tr rest ih =>
    match tr with
    | .error e => simp [Parser.parse] at h
    | .ok .Whitespace =>
      exact List.mem_cons_of_mem _ (ih h)
    | .ok .Newline =>
      exact List.mem_cons_of_mem _ (ih h)
    | .ok (.Text command) =>
      simp only [Parser.parse, Parser.parse_call] at h
      have : command = cmd := by
        cases hgo : Parser.parse_call_go [] [] rest with
        | error e => rw [hgo] at h; cases h
        | ok a => rw [hgo] at h; cases h; rfl
      subst this
      exact List.mem_cons_self _ _

/-- A `Text` token with empty content can only come out of the lexer via
the double-quote branch: if the stream of `s` holds one, `s` contains a
double quote. -/
theorem Lexer.lex_empty_text_mem :
    ∀ n (s : List Char), s.length ≤ n →
      ∀ t : String, .ok (.Text t) ∈ Lexer.lex s → t.data = [] → '"' ∈ s := by
  intro n
  induction n with
  | zero =>
    intro s hlen t hmem _
    have : s = [] := List.length_eq_zero.mp (Nat.le_zero.mp hlen)
    subst this
    rw [Lexer.lex.eq_def] at hmem
    simp at hmem
  | succ n ih =>
    intro s hlen t hmem hdata
    cases s with
    | nil => rw [Lexer.lex.eq_def] at hmem; simp at hmem
    | cons c rest =>
      simp only [List.length_cons] at hlen
      rw [Lexer.lex.eq_def] at hmem
      by_cases hws : Lexer.is_whitespace c
      · simp only [hws, if_true, List.mem_cons] at hmem
        rcases hmem with hmem | hmem
        · cases hmem
        · have hsub := (List.dropWhile_sublist (l := rest) (p := Lexer.is_whitespace))
          exact List.mem_cons_of_mem _
            (hsub.subset (ih _ (by have := hsub.length_le; omega) t hmem hdata))
      · simp only [hws, Bool.false_eq_true, if_false] at hmem
        by_cases hunq : Lexer.is_unquoted_text c
        · simp only [hunq, reduceDIte, List.mem_cons] at hmem
          rcases hmem with hmem | hmem
          · -- the word token: its text starts with `c`, hence is non-empty
            cases hmem
            rw [List.takeWhile_cons_of_pos hunq] at hdata
            cases hdata
          · rw [List.dropWhile_cons_of_pos hunq] at hmem
            have hsub := (List.dropWhile_sublist (l := rest) (p := Lexer.is_unquoted_text))
            exact List.mem_cons_of_mem _
              (hsub.subset (ih _ (by have := hsub.length_le; omega) t hmem hdata))
        · rw [dif_neg hunq] at hmem
          by_cases hnl : c = '\r' ∨ c = '\n'
          · simp only [hnl, if_true, List.mem_cons] at hmem
            rcases hmem with hbad | hmem
            · simp at hbad
            · exact List.mem_cons_of_mem _ (ih _ (by omega) t hmem hdata)
          · simp only [hnl, if_false] at hmem
            by_cases hq : c = '"'
            · subst hq
              exact List.mem_cons_self _ _
            · simp only [hq, if_false, List.mem_cons] at hmem
              rcases hmem with hbad | hmem
              · simp at hbad
              · exact List.mem_cons_of_mem _ (ih _ (by omega) t hmem hdata)

/-- A concrete OS environment used to instantiate theorems about
`execute` on closed inputs: the spawn outcome depends on the command
name, covering a spawn failure, an explicit exit code, death by signal,
and a status with neither. -/
def osTest : OS where
  unix := true
  spawn := fun command _ =>
    if command = "a" then .error "boom"
    else if command = "b" then .ok ⟨some 3, none⟩
    else if command = "c" then .ok ⟨none, some 9⟩
    else .ok ⟨none, none⟩
  run_builtin := fun _ _ => (0, [])

/-- The quoted-segment scan can only fail with `UnclosedDelimiter` or
`UnexpectedEnd`, never `UnexpectedChar`. -/
theorem quotedFailure_cases (cs : List Char) (e : ParseError)
    (h : quotedFailure cs = some e) :
    e = .UnclosedDelimiter ∨ e = .UnexpectedEnd := by
  induction cs using quotedFailure.induct with
  | case1 =>
    simp [quotedFailure] at h
    exact Or.inl h.symm
  | case2 rest =>
    rw [quotedFailure.eq_def] at h
    simp at h
  | case3 hne =>
    rw [quotedFailure.eq_def] at h
    simp at h
    exact Or.inr h.symm
  | case4 escaped rest hne ih =>
    rw [quotedFailure.eq_def] at h
    simp only [if_neg hne, if_pos rfl] at h
    exact ih h
  | case5 escaped rest hq hb ih =>
    rw [quotedFailure.eq_def] at h
    simp only [if_neg hq, if_neg hb] at h
    exact ih h

/-- C1, counterexample: on `echo foo` (token stream exhausted with the
pending argument `foo` accumulated and no trailing `Newline`), the
parser returns `Call "echo" []`: the pending argument is dropped, not
appended, unlike the same line with a trailing newline, which yields
`Call "echo" [[Text "foo"]]`. -/
theorem C1_counterexample :
    Parser.parse_input "echo foo".data = .ok (.Call "echo" []) ∧
    Parser.parse_input "echo foo\n".data = .ok (.Call "echo" [[Expr.Text "foo"]]) ∧
    Ast.Call "echo" [] ≠ Ast.Call "echo" [[Expr.Text "foo"]] := by
  refine ⟨?_, ?_, by simp⟩ <;>
    simp [Parser.parse_input, Parser.parse, Parser.parse_call, Parser.parse_call_go,
      Lexer.lex, Lexer.is_whitespace, Lexer.is_unquoted_text, Lexer.lex_double_quoted_text,
      List.takeWhile, List.dropWhile]

/-- On a newline-free stream of ok tokens, the `parse_call` loop ends at
stream exhaustion with exactly the separator-finalized arguments of its
loop state, dropping the pending argument, while the same stream
terminated by a `Newline` token also appends the pending argument when
it is non-empty. -/
theorem Parser.parse_call_go_no_newline :
    ∀ (toks : List Token), toks.all notNewline = true →
      ∀ args current_arg,
        Parser.parse_call_go args current_arg (toks.map .ok) =
          .ok (Parser.parse_call_state args current_arg toks).1 ∧
        Parser.parse_call_go args current_arg (toks.map .ok ++ [.ok .Newline]) =
          .ok ((Parser.parse_call_state args current_arg toks).1 ++
            (if (Parser.parse_call_state args current_arg toks).2.isEmpty then []
             else [(Parser.parse_call_state args current_arg toks).2])) := by
  intro toks
  induction toks with
  | nil =>
    intro _ args current_arg
    refine ⟨rfl, ?_⟩
    simp only [List.map_nil, List.nil_append, Parser.parse_call_go, Parser.parse_call_state]
    by_cases h : current_arg.isEmpty <;> simp [h]
  | cons t toks ih =>
    intro hn args current_arg
    simp only [List.all_cons, Bool.and_eq_true] at hn
    cases t with
    | Newline => simp [notNewline] at hn
    | Whitespace =>
      simp only [List.map_cons, List.cons_append, Parser.parse_call_go,
        Parser.parse_call_state]
      exact ih hn.2 _ _
    | Text s =>
      simp only [List.map_cons, List.cons_append, Parser.parse_call_go,
        Parser.parse_call_state]
      exact ih hn.2 _ _

/-- C1, amended: for EVERY line whose token stream ends without a
trailing `Newline` — whatever mix of `Text` fragments and `Whitespace`
separators it holds — `parse_call` does NOT append the pending argument:
the resulting `Call` carries exactly the arguments the loop finalized at
earlier `Whitespace` separators (`(parse_call_state [] [] toks).1`), and
the pending argument (`.2`) is discarded; the same stream terminated by
a `Newline` token appends that pending argument when it is non-empty,
which is what the original claim asserted of stream exhaustion. -/
theorem C1_pending_arg_dropped (toks : List Token) (command : String)
    (hn : toks.all notNewline = true) :
    Parser.parse (.ok (.Text command) :: toks.map .ok) =
      .ok (.Call command (Parser.parse_call_state [] [] toks).1) ∧
    Parser.parse (.ok (.Text command) :: (toks.map .ok ++ [.ok .Newline])) =
      .ok (.Call command ((Parser.parse_call_state [] [] toks).1 ++
        (if (Parser.parse_call_state [] [] toks).2.isEmpty then []
         else [(Parser.parse_call_state [] [] toks).2]))) := by
  have h := Parser.parse_call_go_no_newline toks hn [] []
  constructor
  · simp only [Parser.parse, Parser.parse_call, h.1]
  · simp only [Parser.parse, Parser.parse_call, h.2]

/-- C1, witness: the amended statement at the line `echo a b`, which has
one argument already finalized by whitespace (`a`) and a non-empty
pending argument (`b`) when the stream ends: without a trailing
`Newline` the parse keeps only `a`; with it, both `a` and `b`. -/
theorem C1_pending_arg_dropped_witness :
    Parser.parse (.ok (.Text "echo") ::
        [Token.Text "a", Token.Whitespace, Token.Text "b"].map .ok) =
      .ok (.Call "echo" [[Expr.Text "a"]]) ∧
    Parser.parse (.ok (.Text "echo") ::
        ([Token.Text "a", Token.Whitespace, Token.Text "b"].map .ok ++ [.ok .Newline])) =
      .ok (.Call "echo" [[Expr.Text "a"], [Expr.Text "b"]]) :=
  C1_pending_arg_dropped [Token.Text "a", Token.Whitespace, Token.Text "b"] "echo" rfl

/-- C2, counterexample: the two-character line `""` (an empty
double-quoted segment) parses to a `Call` whose command is the empty
string, so `parse` can return a `Call` with empty command. -/
theorem C2_counterexample :
    Parser.parse_input ['"', '"'] = .ok (.Call "" []) ∧ ("" : String).data = [] := by
  refine ⟨?_, rfl⟩
  simp [Parser.parse_input, Parser.parse, Parser.parse_call, Parser.parse_call_go,
    Lexer.lex, Lexer.is_whitespace, Lexer.is_unquoted_text, Lexer.lex_double_quoted_text]

/-- C2, amended: a blank or whitespace-only line parses to `Empty`, and
the command of a `Call` can be empty only when the input contains a
double quote (an empty quoted segment); commands arising from unquoted
words are never empty. -/
theorem C2_empty_command :
    (∀ s : List Char, (∀ c ∈ s, c = ' ' ∨ c = '\t' ∨ c = '\r' ∨ c = '\n') →
      Parser.parse_input s = .ok .Empty) ∧
    (∀ (s : List Char) (cmd : String) (args : List (List Expr)),
      Parser.parse_input s = .ok (.Call cmd args) → cmd.data = [] → '"' ∈ s) :=
  ⟨fun s h => Parser.parse_ws_only s h,
   fun s cmd args hp hd =>
     Lexer.lex_empty_text_mem s.length s (Nat.le_refl _) cmd
       (Parser.parse_command_mem (Lexer.lex s) cmd args hp) hd⟩

/-- C2, witness: the amended statement at the blank line `" \t"` and at
the line `""` whose parsed command is the empty string. -/
theorem C2_empty_command_witness :
    Parser.parse_input [' ', '\t'] = .ok .Empty ∧ '"' ∈ ['"', '"'] :=
  ⟨C2_empty_command.1 [' ', '\t'] (by decide),
   C2_empty_command.2 ['"', '"'] "" []
     (by simp [Parser.parse_input, Parser.parse, Parser.parse_call, Parser.parse_call_go,
       Lexer.lex, Lexer.is_whitespace, Lexer.is_unquoted_text, Lexer.lex_double_quoted_text])
     rfl⟩

/-- C3, counterexample: the bare input `a"b c"d` parses with command `a`
and, with no trailing newline, an empty argument list; with a trailing
newline it parses to command `a` with the single argument
`[Text "b c", Text "d"]`, which evaluates to `b cd` (the quoted space is
preserved), not to `abcd`. -/
theorem C3_counterexample :
    Parser.parse_input "a\"b c\"d".data = .ok (.Call "a" []) ∧
    Parser.parse_input "a\"b c\"d\n".data =
      .ok (.Call "a" [[Expr.Text "b c", Expr.Text "d"]]) ∧
    evalArg [Expr.Text "b c", Expr.Text "d"] = "b cd" ∧
    ("b cd" : String) ≠ "abcd" := by
  refine ⟨?_, ?_, by simp [evalArg]; rfl, by simp⟩ <;>
    simp [Parser.parse_input, Parser.parse, Parser.parse_call, Parser.parse_call_go,
      Lexer.lex, Lexer.is_whitespace, Lexer.is_unquoted_text, Lexer.lex_double_quoted_text,
      List.takeWhile, List.dropWhile]

/-- C3, amended: the line `a"b c"d` with its terminating newline lexes,
parses and evaluates to a `Call` with command `a` and exactly one
argument whose evaluated value is `b cd`: the quoted inner space does
not act as an argument separator (all fragments join into one argument)
but is kept literally in the value.  In an argument position
(`echo a"b c"d`) the same word evaluates to the single argument
`ab cd`. -/
theorem C3_quoted_space_literal :
    Parser.parse_input "a\"b c\"d\n".data =
      .ok (.Call "a" [[Expr.Text "b c", Expr.Text "d"]]) ∧
    [[Expr.Text "b c", Expr.Text "d"]].map evalArg = ["b cd"] ∧
    Parser.parse_input "echo a\"b c\"d\n".data =
      .ok (.Call "echo" [[Expr.Text "a", Expr.Text "b c", Expr.Text "d"]]) ∧
    [[Expr.Text "a", Expr.Text "b c", Expr.Text "d"]].map evalArg = ["ab cd"] := by
  refine ⟨?_, by simp [evalArg]; rfl, ?_, by simp [evalArg]; rfl⟩ <;>
    simp [Parser.parse_input, Parser.parse, Parser.parse_call, Parser.parse_call_go,
      Lexer.lex, Lexer.is_whitespace, Lexer.is_unquoted_text, Lexer.lex_double_quoted_text,
      List.takeWhile, List.dropWhile]

/-- C4: the escape rule inside a double-quoted segment.  A backslash
followed by `"` or `\` contributes only the escaped character; a
backslash followed by any other character contributes the backslash and
that character literally; a backslash at end of input fails with
`UnexpectedEnd`.  The closed conjuncts exercise the rule through whole
quoted tokens: `"\"x"` lexes to `"x`, `"\\"` to `\`, `"\q"` to `\q`, and
`"a\` (backslash then end of input) to `UnexpectedEnd`. -/
theorem C4_escape_rule (text : List Char) (c : Char) (rest : List Char) :
    (Lexer.lex_double_quote_escape text [] = .error .UnexpectedEnd) ∧
    ((c = '"' ∨ c = '\\') →
      Lexer.lex_double_quote_escape text (c :: rest) = .ok (text ++ [c], rest)) ∧
    (¬(c = '"' ∨ c = '\\') →
      Lexer.lex_double_quote_escape text (c :: rest) = .ok (text ++ ['\\', c], rest)) ∧
    Lexer.lex ['"', '\\', '"', 'x', '"'] = [.ok (.Text "\"x")] ∧
    Lexer.lex ['"', '\\', '\\', '"'] = [.ok (.Text "\\")] ∧
    Lexer.lex ['"', '\\', 'q', '"'] = [.ok (.Text "\\q")] ∧
    Lexer.lex ['"', 'a', '\\'] = [.error .UnexpectedEnd] := by
  refine ⟨rfl, ?_, ?_, ?_, ?_, ?_, ?_⟩
  · intro h
    simp only [Lexer.lex_double_quote_escape]
    rw [if_pos h.symm]
  · intro h
    simp only [Lexer.lex_double_quote_escape]
    rw [if_neg (fun hc => h hc.symm)]
  all_goals
    simp [Lexer.lex, Lexer.is_whitespace, Lexer.is_unquoted_text,
      Lexer.lex_double_quoted_text]

/-- C4, witness: the escape rule at the concrete escapes `\"` and `\q`
with accumulated text `t` and remaining input `r`. -/
theorem C4_escape_rule_witness :
    Lexer.lex_double_quote_escape ['t'] ('"' :: ['r']) = .ok (['t'] ++ ['"'], ['r']) ∧
    Lexer.lex_double_quote_escape ['t'] ('q' :: ['r']) = .ok (['t'] ++ ['\\', 'q'], ['r']) :=
  ⟨(C4_escape_rule ['t'] '"' ['r']).2.1 (Or.inl rfl),
   (C4_escape_rule ['t'] 'q' ['r']).2.2.1 (by decide)⟩

/-- C5: dispatch of a command that is not a registered builtin.  A spawn
failure reports a diagnostic naming the command and yields exit code
127; on spawn success an explicit exit code is returned as is; else a
termination signal `N` exposed by the platform yields `128 + N`; else
127. -/
theorem C5_external_exit_codes (os : OS) (command : String) (args : List (List Expr))
    (hb : builtins.find? (fun b => b.name == command) = none) :
    (∀ e, os.spawn command (args.map evalArg) = .error e →
      execute os (.Call command args) = (127, ["shroom: " ++ command ++ ": " ++ e])) ∧
    (∀ st code, os.spawn command (args.map evalArg) = .ok st → st.code = some code →
      execute os (.Call command args) = (code, [])) ∧
    (∀ st n, os.spawn command (args.map evalArg) = .ok st → st.code = none →
      exit_signal os.unix st = some n →
      execute os (.Call command args) = (128 + n, [])) ∧
    (∀ st, os.spawn command (args.map evalArg) = .ok st → st.code = none →
      exit_signal os.unix st = none →
      execute os (.Call command args) = (127, [])) := by
  refine ⟨?_, ?_, ?_, ?_⟩
  · intro e hsp
    simp [execute, hb, hsp]
  · intro st code hsp hcode
    simp [execute, hb, hsp, hcode]
  · intro st n hsp hcode hsig
    simp [execute, hb, hsp, hcode, hsig]
  · intro st hsp hcode hsig
    simp [execute, hb, hsp, hcode, hsig]

/-- C5, witness: the four outcomes exercised in the concrete environment
`osTest` on commands `a` (spawn failure), `b` (explicit exit code 3),
`c` (killed by signal 9) and `d` (neither). -/
theorem C5_external_exit_codes_witness :
    execute osTest (.Call "a" []) = (127, ["shroom: " ++ "a" ++ ": " ++ "boom"]) ∧
    execute osTest (.Call "b" []) = (3, []) ∧
    execute osTest (.Call "c" []) = (128 + 9, []) ∧
    execute osTest (.Call "d" []) = (127, []) :=
  ⟨(C5_external_exit_codes osTest "a" [] rfl).1 "boom" rfl,
   (C5_external_exit_codes osTest "b" [] rfl).2.1 ⟨some 3, none⟩ 3 rfl rfl,
   (C5_external_exit_codes osTest "c" [] rfl).2.2.1 ⟨none, some 9⟩ 9 rfl rfl rfl,
   (C5_external_exit_codes osTest "d" [] rfl).2.2.2 ⟨none, none⟩ rfl rfl rfl⟩

/-- C6: an argument count outside a registered builtin's inclusive
`[min_args, max_args]` range reports "not enough arguments" or "too many
arguments" prefixed with the builtin's name and yields exit code 1; the
result does not depend on `OS.run_builtin`, i.e. the handler is not
invoked.  In particular `cd` with two or more arguments fails with "too
many arguments" and exit code 1 in every environment. -/
theorem C6_builtin_arity (os : OS) (command : String) (args : List (List Expr))
    (b : Builtin) (hb : builtins.find? (fun x => x.name == command) = some b)
    (hout : args.length < b.min_args ∨ args.length > b.max_args) :
    execute os (.Call command args) =
      (1, [if args.length < b.min_args then "shroom: " ++ b.name ++ ": not enough arguments"
           else "shroom: " ++ b.name ++ ": too many arguments"]) ∧
    ∀ (os2 : OS) (args2 : List (List Expr)), 2 ≤ args2.length →
      execute os2 (.Call "cd" args2) = (1, ["shroom: cd: too many arguments"]) := by
  constructor
  · rcases Nat.lt_or_ge args.length b.min_args with h | h
    · simp [execute, hb, h]
    · have hmax : args.length > b.max_args := by
        rcases hout with hlt | hgt
        · omega
        · exact hgt
      simp [execute, hb, hmax, Nat.not_lt.mpr h]
  · intro os2 args2 h2
    have h0 : ¬ args2.length < 0 := by omega
    have h1 : args2.length > 1 := by omega
    simp [execute, show builtins.find? (fun x => x.name == "cd") = some ⟨"cd", 0, 1⟩ from rfl,
      h0, h1]

/-- C6, witness: `cd x y` in the concrete environment `osTest`. -/
theorem C6_builtin_arity_witness :
    execute osTest (.Call "cd" [[Expr.Text "x"], [Expr.Text "y"]]) =
      (1, ["shroom: cd: too many arguments"]) ∧
    execute osTest (.Call "cd" [[Expr.Text "x"], [Expr.Text "y"]]) =
      (1, ["shroom: cd: too many arguments"]) := by
  have h := C6_builtin_arity osTest "cd" [[Expr.Text "x"], [Expr.Text "y"]]
    ⟨"cd", 0, 1⟩ rfl (Or.inr (by decide))
  exact ⟨h.1, h.2 osTest [[Expr.Text "x"], [Expr.Text "y"]] (by decide)⟩

/-- C7, counterexample: in the line `"a\` the double quote is opened and
never closed before end-of-input, yet lexing fails with `UnexpectedEnd`
(the dangling backslash is hit first), not with `UnclosedDelimiter`. -/
theorem C7_counterexample :
    Parser.parse_input ['"', 'a', '\\'] = .error .UnexpectedEnd ∧
    ParseError.UnexpectedEnd ≠ ParseError.UnclosedDelimiter := by
  refine ⟨?_, by simp⟩
  simp [Parser.parse_input, Parser.parse, Parser.parse_call, Parser.parse_call_go,
    Lexer.lex, Lexer.is_whitespace, Lexer.is_unquoted_text, Lexer.lex_double_quoted_text]

/-- C7, amended: a line whose words and spaces are followed by a double
quote that is never closed before end-of-input fails with the error of
the quoted-segment scan — `UnexpectedEnd` when the input ends right
after a backslash inside the segment, `UnclosedDelimiter` otherwise —
and `parse` returns that error, never a `Call`.  These are the only two
possible failures of the scan. -/
theorem C7_unclosed_quote (pre body : List Char) (e : ParseError)
    (hpre : ∀ c ∈ pre, Lexer.is_unquoted_text c = true ∨ Lexer.is_whitespace c = true)
    (hfail : quotedFailure body = some e) :
    Parser.parse_input (pre ++ '"' :: body) = .error e ∧
    (e = .UnclosedDelimiter ∨ e = .UnexpectedEnd) := by
  refine ⟨?_, quotedFailure_cases body e hfail⟩
  obtain ⟨toks, heq, hall⟩ := Lexer.lex_words_append_aux pre.length pre (Nat.le_refl _)
    hpre ('"' :: body) (fun d hd => by cases hd; exact ⟨rfl, rfl⟩)
  rw [Parser.parse_input, heq, Lexer.lex_quote,
    Lexer.lex_double_quoted_text_failure body e hfail []]
  exact Parser.parse_error_propagation toks
    (stillPulling_of_all_notNewline toks hall) e []

/-- C7, witness: the amended statement at `ls "ab` (unclosed quote) and
at `ls "a\` (dangling backslash inside the quote). -/
theorem C7_unclosed_quote_witness :
    Parser.parse_input (['l', 's', ' '] ++ '"' :: ['a', 'b']) =
      .error .UnclosedDelimiter ∧
    Parser.parse_input (['l', 's', ' '] ++ '"' :: ['a', '\\']) =
      .error .UnexpectedEnd :=
  ⟨(C7_unclosed_quote ['l', 's', ' '] ['a', 'b'] .UnclosedDelimiter
      (by decide) rfl).1,
   (C7_unclosed_quote ['l', 's', ' '] ['a', '\\'] .UnexpectedEnd
      (by decide) rfl).1⟩

/-- C8: an error pulled from the lexer while the parser is still
consuming tokens — before a `Newline` has completed the call — becomes
the result of `parse` itself, and no (partial) AST is produced, even
when the error follows a valid command name and valid earlier
arguments. -/
theorem C8_error_propagation (toks : List Token) (e : ParseError)
    (rest : List (Except ParseError Token)) (hp : stillPulling toks = true) :
    Parser.parse (toks.map .ok ++ .error e :: rest) = .error e ∧
    ∀ ast, Parser.parse (toks.map .ok ++ .error e :: rest) ≠ .ok ast := by
  have h := Parser.parse_error_propagation toks hp e rest
  exact ⟨h, fun ast hc => by rw [h] at hc; cases hc⟩

/-- C8, witness: the propagation after a valid command name and one
finalized argument (`echo a `) followed by a lexer error. -/
theorem C8_error_propagation_witness :
    Parser.parse ([Token.Text "echo", Token.Whitespace, Token.Text "a",
        Token.Whitespace].map .ok ++ .error .UnclosedDelimiter :: []) =
      .error .UnclosedDelimiter :=
  (C8_error_propagation [Token.Text "echo", Token.Whitespace, Token.Text "a",
    Token.Whitespace] .UnclosedDelimiter [] rfl).1

/-- C9: a line made only of spaces, tabs, carriage returns and newlines
(including the empty line) parses to `Empty`, and executing `Empty`
yields exit code 0 with no diagnostic, in every environment. -/
theorem C9_whitespace_empty (os : OS) (s : List Char)
    (hclass : ∀ c ∈ s, c = ' ' ∨ c = '\t' ∨ c = '\r' ∨ c = '\n') :
    Parser.parse_input s = .ok .Empty ∧ execute os .Empty = (0, []) :=
  ⟨Parser.parse_ws_only s hclass, rfl⟩

/-- C9, witness: the statement at the line `" \t\r\n"` in `osTest`. -/
theorem C9_whitespace_empty_witness :
    Parser.parse_input [' ', '\t', '\r', '\n'] = .ok .Empty ∧
    execute osTest .Empty = (0, []) :=
  C9_whitespace_empty osTest [' ', '\t', '\r', '\n'] (by decide)

/-- C10: the two-character input `""` lexes to a single `Text` token with
empty content, and the line `echo ""` parses to a call with one argument
that evaluates to the empty string. -/
theorem C10_empty_quoted_arg :
    Lexer.lex ['"', '"'] = [.ok (.Text "")] ∧
    Parser.parse_input "echo \"\"\n".data = .ok (.Call "echo" [[Expr.Text ""]]) ∧
    [[Expr.Text ""]].map evalArg = [""] := by
  refine ⟨?_, ?_, by simp [evalArg]; rfl⟩ <;>
    simp [Parser.parse_input, Parser.parse, Parser.parse_call, Parser.parse_call_go,
      Lexer.lex, Lexer.is_whitespace, Lexer.is_unquoted_text, Lexer.lex_double_quoted_text,
      List.takeWhile, List.dropWhile]
